import Mathlib

/-!
# Verification of the Hybrid Resolution & Metered Accounting Pipeline

A shallow embedding of the credit ledger (`src/backend/database.py`,
class `FirestoreService`) and the hybrid orchestrator
(`src/backend/main.py`, `get_molecule_names_with_credits` and
`check_credit_limits`), together with proofs and refutations of the
specified properties.

Modelling conventions:
* The embedding tracks a single account (the claims are all per-account).
  `SvcState.store` is the Firestore document for that account and
  `SvcState.cache` is the read-through in-memory entry of
  `FirestoreService._user_cache` for that account; `none` means
  "no valid cache entry" (absent or TTL-expired), `some u` a valid entry.
* Integer basic credits are `Int`, fractional premium credits are `Rat`
  (the Python code uses exact-in-binary decimals in the scenarios of the
  spec, and the arithmetic structure is what the claims are about).
* `datetime` values are reduced to the `(year, month, day)` fields the
  code inspects (`.month`, `.year`, `.replace(day=1)`).
-/

namespace Chemly

/-- The date fields of Python `datetime` that `database.py` inspects. -/
structure Date where
  year : Nat
  month : Nat
  day : Nat
deriving DecidableEq, Repr

/-- An account document in the `users` collection, restricted to the
fields read or written by the credit ledger
(`src/backend/database.py`). -/
structure UserDoc where
  basic_credits_used : Int
  basic_credits_limit : Int
  premium_credits_used : Rat
  premium_credits_limit : Rat
  subscription_plan : String
  monthly_reset_date : Date
  last_credit_usage : Option Date
deriving DecidableEq, Repr

/-- State of `FirestoreService` for one account: the persistent
document plus the read-through cache entry (`_user_cache`). -/
structure SvcState where
  store : UserDoc
  cache : Option UserDoc
deriving DecidableEq, Repr

/-- `FirestoreService._invalidate_user_cache` (database.py:63-67):
drops the cache entry for the account. -/
def _invalidate_user_cache (s : SvcState) : SvcState :=
  { s with cache := none }

/-- `FirestoreService.get_user_by_id` (database.py:115-137): returns the
cached document when a valid cache entry exists, otherwise fetches from
Firestore and caches the result. -/
def get_user_by_id (s : SvcState) : UserDoc × SvcState :=
  match s.cache with
  | some u => (u, s)
  | none => (s.store, { s with cache := some s.store })

/-- `FirestoreService.check_and_reset_monthly_credits`
(database.py:213-237): reads the user (possibly from cache); if the
stored `monthly_reset_date` is in a different calendar month or year
than `now`, writes zero used counters and a first-of-month anchor to
Firestore.  Note: the write does not invalidate the cache. -/
def check_and_reset_monthly_credits (now : Date) (s : SvcState) :
    Bool × SvcState :=
  let (user, s1) := get_user_by_id s
  if now.month ≠ user.monthly_reset_date.month ∨
      now.year ≠ user.monthly_reset_date.year then
    (true, { s1 with store :=
      { s1.store with
        basic_credits_used := 0
        premium_credits_used := 0
        monthly_reset_date := { now with day := 1 } } })
  else
    (false, s1)

/-- `FirestoreService.consume_basic_credits` (database.py:239-269):
monthly reset check, read the user (possibly cached), check
`used + amount > limit`, and on success atomically increment the stored
counter (`firestore.Increment`) and invalidate the cache. -/
def consume_basic_credits (now : Date) (credits_to_use : Int)
    (s : SvcState) : Bool × SvcState :=
  let s1 := (check_and_reset_monthly_credits now s).2
  let (user, s2) := get_user_by_id s1
  if user.basic_credits_used + credits_to_use > user.basic_credits_limit then
    (false, s2)
  else
    let s3 := { s2 with store :=
      { s2.store with
        basic_credits_used := s2.store.basic_credits_used + credits_to_use
        last_credit_usage := some now } }
    (true, _invalidate_user_cache s3)

/-- `FirestoreService.consume_premium_credits` (database.py:271-305):
like the basic case but the amount is `compute_seconds / 10` fractional
credits. -/
def consume_premium_credits (now : Date) (compute_seconds : Rat)
    (s : SvcState) : Bool × SvcState :=
  let s1 := (check_and_reset_monthly_credits now s).2
  let (user, s2) := get_user_by_id s1
  let credits_needed := compute_seconds / 10
  if user.premium_credits_used + credits_needed >
      user.premium_credits_limit then
    (false, s2)
  else
    let s3 := { s2 with store :=
      { s2.store with
        premium_credits_used := s2.store.premium_credits_used + credits_needed
        last_credit_usage := some now } }
    (true, _invalidate_user_cache s3)

/-- Plan limits, from `SUBSCRIPTION_PLANS` in
`src/backend/auth_models.py` (lines 55-71). -/
structure PlanConfig where
  basic_credits_limit : Int
  premium_credits_limit : Rat
deriving DecidableEq, Repr

/-- `SUBSCRIPTION_PLANS` (auth_models.py:55-71). -/
def SUBSCRIPTION_PLANS (plan : String) : Option PlanConfig :=
  if plan = "free" then some ⟨200, 35⟩
  else if plan = "pro" then some ⟨1000, 750⟩
  else if plan = "premium" then some ⟨2000, 1500⟩
  else none

/-- `FirestoreService.update_user_subscription` (database.py:357-376):
replaces the plan and both limits; leaves the used counters alone.
Note: this method performs no cache invalidation. -/
def update_user_subscription (new_plan : String) (s : SvcState) :
    Bool × SvcState :=
  match SUBSCRIPTION_PLANS new_plan with
  | none => (false, s)
  | some cfg =>
    (true, { s with store :=
      { s.store with
        subscription_plan := new_plan
        basic_credits_limit := cfg.basic_credits_limit
        premium_credits_limit := cfg.premium_credits_limit } })

/-- `FirestoreService.reset_user_credits` (database.py:378-395):
administrative reset of both used counters, with cache invalidation. -/
def reset_user_credits (now : Date) (s : SvcState) : Bool × SvcState :=
  (true, _invalidate_user_cache
    { s with store :=
      { s.store with
        basic_credits_used := 0
        premium_credits_used := 0
        last_credit_usage := some now } })

/-- `FirestoreService.get_user_credit_usage` (database.py:334-355):
monthly reset check followed by a (possibly cached) read; the returned
dictionary is represented by the document itself. -/
def get_user_credit_usage (now : Date) (s : SvcState) :
    UserDoc × SvcState :=
  let s1 := (check_and_reset_monthly_credits now s).2
  get_user_by_id s1

/-- `check_credit_limits` (main.py:98-109): the naming endpoint's entry
gate.  Returns `true` when the request is rejected with HTTP 429,
which happens exactly when both remaining balances are `≤ 0`. -/
def check_credit_limits (now : Date) (s : SvcState) : Bool × SvcState :=
  let (usage, s1) := get_user_credit_usage now s
  let basic_remaining := usage.basic_credits_limit - usage.basic_credits_used
  let premium_remaining :=
    usage.premium_credits_limit - usage.premium_credits_used
  if basic_remaining ≤ 0 ∧ premium_remaining ≤ 0 then
    (true, s1)
  else
    (false, s1)

/-! ## The hybrid orchestrator (`src/backend/main.py`)

`get_molecule_names_with_credits` (main.py:238-313).  External effects
are parameters: `pubchem` is the per-identifier outcome of the
concurrent PubChem phase (`none` covers a miss, a timeout, a transport
error, or an exception collected by `asyncio.gather`); `stoutFn` is
`cached_stout_translate` viewed as a total function (its own exception
handler returns the string "No name found"); `stoutOk` is whether the
batch STOUT call at main.py:286-288 returned without raising; `T` is
the measured wall-clock time of that call. -/

/-- The guard at main.py:264: a PubChem result counts as a fast-path
name when it is a string different from "No name found". -/
def fastNamed : Option String → Bool
  | some name => name != "No name found"
  | none => false

/-- Enumeration of a list with positions starting at `i` (the
`enumerate(zip(...))` at main.py:261). -/
def enumFrom (i : Nat) : List α → List (Nat × α)
  | [] => []
  | a :: rest => (i, a) :: enumFrom (i + 1) rest

/-- The fast-path walk (main.py:261-280): items are visited in original
index order; a fast-named item triggers `consume_basic_credits(1)`;
acceptance fills the item's slot and counts one basic credit; rejection
or a fast miss appends `(index, smiles)` to the slow-pending list. -/
def fastLoop (now : Date) :
    List (Nat × String × Option String) → SvcState → List (Option String) →
    List (Nat × String) → Nat →
    List (Option String) × List (Nat × String) × Nat × SvcState
  | [], s, results, stout, basic => (results, stout, basic, s)
  | (i, sm, r) :: rest, s, results, stout, basic =>
    if fastNamed r then
      match consume_basic_credits now 1 s with
      | (true, s1) =>
        fastLoop now rest s1 (results.set i (some (r.getD "")))
          stout (basic + 1)
      | (false, s1) =>
        fastLoop now rest s1 results (stout ++ [(i, sm)]) basic
    else
      fastLoop now rest s results (stout ++ [(i, sm)]) basic

/-- The slow-path billing walk (main.py:293-301): the slow-pending
subset, zipped with the STOUT results, is visited in append order; each
member triggers `consume_premium_credits(individual_compute_time)`;
acceptance fills the slot with the STOUT result and adds
`individual_compute_time / 10` credits to the premium total; rejection
fills the slot with "Credit limit exceeded".  The source recomputes
`individual_compute_time = compute_time / len(stout_needed)` inside the
loop (main.py:294); it is loop-invariant, so it is passed in once
here. -/
def slowLoop (now : Date) (individual_compute_time : Rat) :
    List ((Nat × String) × String) → SvcState → List (Option String) → Rat →
    List (Option String) × Rat × SvcState
  | [], s, results, prem => (results, prem, s)
  | ((idx, _), res) :: rest, s, results, prem =>
    match consume_premium_credits now individual_compute_time s with
    | (true, s1) =>
      slowLoop now individual_compute_time rest s1
        (results.set idx (some res)) (prem + individual_compute_time / 10)
    | (false, s1) =>
      slowLoop now individual_compute_time rest s1
        (results.set idx (some "Credit limit exceeded")) prem

/-- Result of one orchestrated batch: the tuple returned at
main.py:313. -/
structure OrchOutput where
  names : List String
  basic_credits_used : Nat
  premium_credits_used : Rat
  total_compute_time : Rat
  state : SvcState
deriving DecidableEq, Repr

/-- The final fill at main.py:308-311: any slot still unset becomes
"No name found". -/
def fillNone (results : List (Option String)) : List String :=
  results.map (fun o => o.getD "No name found")

/-- `get_molecule_names_with_credits` (main.py:238-313) for one
account.  The initial `get_user_by_id` is the pre-fetch at
main.py:244 (the single-account model always finds the user, so the
"User not found" early return at main.py:245-246 does not arise). -/
def get_molecule_names_with_credits (now : Date)
    (pubchem : String → Option String) (stoutFn : String → String)
    (stoutOk : Bool) (T : Rat) (smiles_list : List String)
    (s0 : SvcState) : OrchOutput :=
  let s := (get_user_by_id s0).2
  let pub := smiles_list.map pubchem
  let enum := (enumFrom 0 (smiles_list.zip pub)).map
    (fun p => (p.1, p.2.1, p.2.2))
  let init := List.replicate smiles_list.length (none : Option String)
  let (results, stout, basic, s1) := fastLoop now enum s init [] 0
  if stout.isEmpty then
    ⟨fillNone results, basic, 0, 0, s1⟩
  else if stoutOk then
    let stout_results := stout.map (fun p => stoutFn p.2)
    let individual := T / (stout.length : Rat)
    let (results2, prem, s2) :=
      slowLoop now individual (stout.zip stout_results) s1 results 0
    ⟨fillNone results2, basic, prem, T, s2⟩
  else
    let results2 := stout.foldl
      (fun r p => r.set p.1 (some "Processing failed")) results
    ⟨fillNone results2, basic, 0, 0, s1⟩

/-! ## Concurrency model for `consume_basic_credits`

`consume_basic_credits` (database.py:239-269) is an `async` method: it
awaits `get_user_by_id` (a Firestore read), then checks
`current_used + credits_to_use > credit_limit` on the value it read,
and only then issues `user_ref.update({'basic_credits_used':
firestore.Increment(...)})`.  The read and the increment are separate
Firestore operations with an `await` point between them, so two
concurrent calls for the same account may interleave freely: each call
is two atomic steps, a read step and a check-and-commit step, where the
commit is an unconditional atomic increment of the stored counter
(`firestore.Increment` adds to whatever value the store holds at commit
time, not to the value that was read).  The model below runs two such
calls, each consuming one credit, under an arbitrary interleaving. -/

/-- Progress of one in-flight `consume_basic_credits(user_id, 1)`
call: not yet started, holding the value it read, or finished with its
return value. -/
inductive ThreadSt
  | pending
  | readDone (r : Int)
  | finished (accepted : Bool)
deriving DecidableEq, Repr

/-- One atomic step of a single call against the stored counter:
`pending` performs the read (database.py:245, 249); `readDone r`
performs the check against the read value (database.py:252) and, when
it passes, the atomic increment of the stored counter
(database.py:258-261). -/
def threadStep (limit : Int) (used : Int) : ThreadSt → Int × ThreadSt
  | .pending => (used, .readDone used)
  | .readDone r =>
    if r + 1 > limit then (used, .finished false)
    else (used + 1, .finished true)
  | .finished b => (used, .finished b)

/-- Shared stored counter plus the progress of two concurrent calls. -/
structure RaceState where
  used : Int
  t1 : ThreadSt
  t2 : ThreadSt
deriving DecidableEq, Repr

/-- Run one step of the thread selected by the scheduler. -/
def raceStep (limit : Int) (st : RaceState) (tid : Bool) : RaceState :=
  if tid then
    let (u, t) := threadStep limit st.used st.t1
    { st with used := u, t1 := t }
  else
    let (u, t) := threadStep limit st.used st.t2
    { st with used := u, t2 := t }

/-- Run two concurrent single-credit `consume_basic_credits` calls
under the interleaving given by `sched` (`true` schedules the first
call, `false` the second). -/
def raceRun (limit : Int) (sched : List Bool) (st : RaceState) :
    RaceState :=
  sched.foldl (raceStep limit) st

/-- Number of accepted calls in a final race state. -/
def acceptedCount (st : RaceState) : Nat :=
  (if st.t1 = .finished true then 1 else 0) +
    (if st.t2 = .finished true then 1 else 0)

/-! ## The balance invariant -/

/-- The account invariant from the spec's data model:
`0 ≤ fast_used ≤ fast_limit` and `0 ≤ premium_used ≤ premium_limit`. -/
def CreditInvariant (u : UserDoc) : Prop :=
  0 ≤ u.basic_credits_used ∧
    u.basic_credits_used ≤ u.basic_credits_limit ∧
    0 ≤ u.premium_credits_used ∧
    u.premium_credits_used ≤ u.premium_credits_limit

instance (u : UserDoc) : Decidable (CreditInvariant u) := by
  unfold CreditInvariant
  infer_instance

/-- The read-through cache entry, when present, agrees with the
store.  This holds while only the invalidating mutations run; the
non-invalidating mutations (`update_user_subscription`,
`check_and_reset_monthly_credits`) can break it. -/
def CacheCoherent (s : SvcState) : Prop :=
  s.cache = none ∨ s.cache = some s.store

instance (s : SvcState) : Decidable (CacheCoherent s) := by
  unfold CacheCoherent
  infer_instance

/-! ## C1 -/

/-- C1: the claim that the check `used + amount ≤ limit` and the
mutation `used += amount` of `consume_basic_credits` /
`consume_premium_credits` form one indivisible operation is false on
the code.  The method is a read (`get_user_by_id`), a local check, and
then an unconditional atomic increment, with await points between
them.  With `limit = 1`, `used = 0` and two concurrent single-unit
debits scheduled so that both reads happen before either commit, both
calls pass the check and are accepted, and the final stored counter is
`2 > limit`: the claim's "exactly N accepted" (here N = 1) fails. -/
theorem race_two_debits_overdraw :
    (raceRun 1 [true, false, true, false]
        ⟨0, ThreadSt.pending, ThreadSt.pending⟩).used = 2 ∧
    acceptedCount (raceRun 1 [true, false, true, false]
        ⟨0, ThreadSt.pending, ThreadSt.pending⟩) = 2 ∧
    1 < (raceRun 1 [true, false, true, false]
        ⟨0, ThreadSt.pending, ThreadSt.pending⟩).used := by
  decide

/-! ## C2 -/

/-- C2, counterexample: `update_user_subscription` replaces the limits
without touching the used counters (database.py:357-376), so
downgrading a "pro" account with `basic_credits_used = 500` and
`premium_credits_used = 100` to the "free" plan (limits 200 and 35,
auth_models.py:56-60) commits a state with both used counters above
their limits, violating the invariant. -/
theorem update_subscription_violates_invariant :
    CreditInvariant
      (⟨500, 1000, 100, 750, "pro", ⟨2025, 10, 1⟩, none⟩ : UserDoc) ∧
    (update_user_subscription "free"
      ⟨⟨500, 1000, 100, 750, "pro", ⟨2025, 10, 1⟩, none⟩, none⟩).1 = true ∧
    ¬ CreditInvariant
      (update_user_subscription "free"
        ⟨⟨500, 1000, 100, 750, "pro", ⟨2025, 10, 1⟩, none⟩,
          none⟩).2.store := by
  decide

/-! ## C3 -/

/-- C3, counterexample: a slow-pending item whose slow resolution
fails is billed.  One identifier, PubChem miss, STOUT returning the
failure value "No name found", batch time 10 s: the billing loop at
main.py:293-301 still issues `consume_premium_credits`, which is
accepted, so the failed item contributes 1 premium credit to the total
and to the stored counter. -/
theorem slow_failed_item_is_billed :
    let out := get_molecule_names_with_credits ⟨2025, 10, 12⟩
      (fun _ => none) (fun _ => "No name found") true 10 ["X"]
      ⟨⟨0, 200, 0, 35, "free", ⟨2025, 10, 1⟩, none⟩, none⟩
    out.names = ["No name found"] ∧
    out.premium_credits_used = 1 ∧
    out.state.store.premium_credits_used = 1 := by
  simp only [get_molecule_names_with_credits, fastLoop, slowLoop, enumFrom,
    consume_basic_credits, consume_premium_credits,
    check_and_reset_monthly_credits, get_user_by_id, _invalidate_user_cache,
    fillNone, fastNamed, List.zip, List.map, List.replicate, List.set,
    List.isEmpty, List.foldl, List.length, List.zipWith]
  norm_num

/-! ## C4 -/

/-- C4: an accepted `consume_basic_credits` or
`consume_premium_credits` does invalidate the account's cache entry,
but `update_user_subscription` (database.py:357-376) performs no cache
invalidation: after a successful plan change the stale entry is still
cached, so a balance read within the TTL returns the old limits. -/
theorem tier_update_leaves_stale_cache :
    let u : UserDoc := ⟨0, 200, 0, 35, "free", ⟨2025, 10, 1⟩, none⟩
    (consume_basic_credits ⟨2025, 10, 12⟩ 1 ⟨u, some u⟩).1 = true ∧
    (consume_basic_credits ⟨2025, 10, 12⟩ 1 ⟨u, some u⟩).2.cache = none ∧
    (consume_premium_credits ⟨2025, 10, 12⟩ 10 ⟨u, some u⟩).1 = true ∧
    (consume_premium_credits ⟨2025, 10, 12⟩ 10 ⟨u, some u⟩).2.cache
      = none ∧
    (update_user_subscription "pro" ⟨u, some u⟩).1 = true ∧
    (update_user_subscription "pro" ⟨u, some u⟩).2.cache = some u ∧
    (get_user_by_id (update_user_subscription "pro"
      ⟨u, some u⟩).2).1.basic_credits_limit = 200 := by
  simp [consume_basic_credits, consume_premium_credits,
    update_user_subscription, SUBSCRIPTION_PLANS,
    check_and_reset_monthly_credits, get_user_by_id,
    _invalidate_user_cache]

/-! ## C5 -/

/-- C5: `check_and_reset_monthly_credits` on an account whose anchor
lies in a previous month does write zero counters and a first-of-month
anchor to the store, but it does not invalidate the cache entry it
just created by reading the user (database.py:216, 225-230), so a
subsequent balance read through `get_user_by_id` observes the stale
counters (here 5 basic and 3/2 premium) rather than zero. -/
theorem monthly_reset_not_observed_by_reads :
    let s : SvcState :=
      ⟨⟨5, 200, 3 / 2, 35, "free", ⟨2025, 9, 1⟩, none⟩, none⟩
    let r := check_and_reset_monthly_credits ⟨2025, 10, 12⟩ s
    r.1 = true ∧
    r.2.store.basic_credits_used = 0 ∧
    r.2.store.premium_credits_used = 0 ∧
    r.2.store.monthly_reset_date = ⟨2025, 10, 1⟩ ∧
    (get_user_by_id r.2).1.basic_credits_used = 5 ∧
    (get_user_by_id r.2).1.premium_credits_used = 3 / 2 := by
  simp only [check_and_reset_monthly_credits, get_user_by_id]
  norm_num

/-! ## Characterization of the ledger operations on coherent states -/

/-- On a coherent state a read returns the stored document and caches
it. -/
lemma get_user_by_id_coherent (s : SvcState) (hc : CacheCoherent s) :
    get_user_by_id s = (s.store, ⟨s.store, some s.store⟩) := by
  rcases hc with h | h
  · simp [get_user_by_id, h]
  · obtain ⟨store, cache⟩ := s
    simp only [SvcState.cache] at h
    simp [get_user_by_id, h]

/-- The stored document after the monthly-reset check: zeroed counters
and a first-of-month anchor when the stored anchor is in another
month, unchanged otherwise. -/
def storeAfterReset (now : Date) (u : UserDoc) : UserDoc :=
  if now.month ≠ u.monthly_reset_date.month ∨
      now.year ≠ u.monthly_reset_date.year then
    { u with
      basic_credits_used := 0
      premium_credits_used := 0
      monthly_reset_date := ⟨now.year, now.month, 1⟩ }
  else u

lemma check_and_reset_coherent (now : Date) (s : SvcState)
    (hc : CacheCoherent s) :
    check_and_reset_monthly_credits now s =
      (decide (now.month ≠ s.store.monthly_reset_date.month ∨
          now.year ≠ s.store.monthly_reset_date.year),
        ⟨storeAfterReset now s.store, some s.store⟩) := by
  unfold check_and_reset_monthly_credits storeAfterReset
  rw [get_user_by_id_coherent s hc]
  by_cases hm : now.month ≠ s.store.monthly_reset_date.month ∨
      now.year ≠ s.store.monthly_reset_date.year
  · simp only [if_pos hm, hm, decide_eq_true_eq]
    simp [hm]
  · simp only [if_neg hm]
    simp [hm]

/-- Closed form of `consume_basic_credits` on a coherent state: the
check is made against the values read before the operation's own
monthly reset, the increment lands on the stored counter. -/
lemma consume_basic_coherent (now : Date) (amt : Int) (s : SvcState)
    (hc : CacheCoherent s) :
    consume_basic_credits now amt s =
      if s.store.basic_credits_used + amt >
          s.store.basic_credits_limit then
        (false, ⟨storeAfterReset now s.store, some s.store⟩)
      else
        (true, ⟨{ storeAfterReset now s.store with
            basic_credits_used :=
              (storeAfterReset now s.store).basic_credits_used + amt
            last_credit_usage := some now }, none⟩) := by
  unfold consume_basic_credits
  rw [check_and_reset_coherent now s hc]
  simp only [get_user_by_id, _invalidate_user_cache]

/-- Closed form of `consume_premium_credits` on a coherent state. -/
lemma consume_premium_coherent (now : Date) (secs : Rat) (s : SvcState)
    (hc : CacheCoherent s) :
    consume_premium_credits now secs s =
      if s.store.premium_credits_used + secs / 10 >
          s.store.premium_credits_limit then
        (false, ⟨storeAfterReset now s.store, some s.store⟩)
      else
        (true, ⟨{ storeAfterReset now s.store with
            premium_credits_used :=
              (storeAfterReset now s.store).premium_credits_used +
                secs / 10
            last_credit_usage := some now }, none⟩) := by
  unfold consume_premium_credits
  rw [check_and_reset_coherent now s hc]
  simp only [get_user_by_id, _invalidate_user_cache]

/-! ## Preservation of the invariant by the committed mutations -/

lemma consume_basic_preserves_inv (now : Date) (amt : Int) (s : SvcState)
    (hc : CacheCoherent s) (hinv : CreditInvariant s.store)
    (ha : 0 ≤ amt) :
    CreditInvariant ((consume_basic_credits now amt s).2.store) := by
  obtain ⟨h1, h2, h3, h4⟩ := hinv
  rw [consume_basic_coherent now amt s hc]
  unfold storeAfterReset
  split <;> split <;>
    refine ⟨?_, ?_, ?_, ?_⟩ <;>
    simp <;>
    first
      | omega
      | linarith

lemma consume_premium_preserves_inv (now : Date) (secs : Rat)
    (s : SvcState) (hc : CacheCoherent s)
    (hinv : CreditInvariant s.store) (hs : 0 ≤ secs) :
    CreditInvariant ((consume_premium_credits now secs s).2.store) := by
  obtain ⟨h1, h2, h3, h4⟩ := hinv
  have h10 : (0 : Rat) ≤ secs / 10 := by positivity
  rw [consume_premium_coherent now secs s hc]
  unfold storeAfterReset
  split <;> split <;>
    refine ⟨?_, ?_, ?_, ?_⟩ <;>
    simp <;>
    first
      | omega
      | linarith

lemma reset_preserves_inv (now : Date) (s : SvcState)
    (hinv : CreditInvariant s.store) :
    CreditInvariant ((reset_user_credits now s).2.store) := by
  obtain ⟨h1, h2, h3, h4⟩ := hinv
  refine ⟨?_, ?_, ?_, ?_⟩ <;>
    simp [reset_user_credits, _invalidate_user_cache] <;>
    first
      | omega
      | linarith

lemma monthly_reset_preserves_inv (now : Date) (s : SvcState)
    (hinv : CreditInvariant s.store) :
    CreditInvariant
      ((check_and_reset_monthly_credits now s).2.store) := by
  obtain ⟨h1, h2, h3, h4⟩ := hinv
  cases h : s.cache <;>
    simp only [check_and_reset_monthly_credits, get_user_by_id, h] <;>
    split <;>
    refine ⟨?_, ?_, ?_, ?_⟩ <;>
    simp <;>
    first
      | omega
      | linarith

/-! ## C2 -/

/-- C2, amended: the consuming and resetting mutations
(`consume_basic_credits` with a nonnegative amount,
`consume_premium_credits` with nonnegative compute seconds,
`reset_user_credits`, `check_and_reset_monthly_credits`) preserve the
invariant `0 ≤ used ≤ limit` for both currencies, provided the cache
entry (when present) agrees with the store; `update_user_subscription`
is excluded, since it replaces the limits without touching the used
counters and can therefore leave `used > limit` after a downgrade. -/
theorem ledger_mutations_preserve_invariant (now : Date) (s : SvcState)
    (amt : Int) (secs : Rat) (hc : CacheCoherent s)
    (hinv : CreditInvariant s.store) (ha : 0 ≤ amt) (hs : 0 ≤ secs) :
    CreditInvariant ((consume_basic_credits now amt s).2.store) ∧
    CreditInvariant ((consume_premium_credits now secs s).2.store) ∧
    CreditInvariant ((reset_user_credits now s).2.store) ∧
    CreditInvariant
      ((check_and_reset_monthly_credits now s).2.store) :=
  ⟨consume_basic_preserves_inv now amt s hc hinv ha,
    consume_premium_preserves_inv now secs s hc hinv hs,
    reset_preserves_inv now s hinv,
    monthly_reset_preserves_inv now s hinv⟩

/-- Witness for `ledger_mutations_preserve_invariant` at a fresh free
account, `amt = 1`, `secs = 10`. -/
theorem ledger_mutations_preserve_invariant_witness :
    CacheCoherent
      ⟨⟨0, 200, 0, 35, "free", ⟨2025, 10, 1⟩, none⟩, none⟩ ∧
    CreditInvariant
      (⟨0, 200, 0, 35, "free", ⟨2025, 10, 1⟩, none⟩ : UserDoc) ∧
    CreditInvariant ((consume_basic_credits ⟨2025, 10, 12⟩ 1
      ⟨⟨0, 200, 0, 35, "free", ⟨2025, 10, 1⟩, none⟩, none⟩).2.store) :=
  ⟨by decide, by decide,
    (ledger_mutations_preserve_invariant ⟨2025, 10, 12⟩
      ⟨⟨0, 200, 0, 35, "free", ⟨2025, 10, 1⟩, none⟩, none⟩ 1 10
      (by decide) (by decide) (by decide) (by norm_num)).1⟩

/-! ## The slow-path billing walk is first-come-first-served -/

/-- `consume_premium_credits` on a coherent state whose anchor is in
the current month: the monthly reset does not fire, so the operation
is a pure check-and-increment against the stored document. -/
lemma consume_premium_current (now : Date) (secs : Rat) (s : SvcState)
    (hc : CacheCoherent s)
    (hm : now.month = s.store.monthly_reset_date.month)
    (hy : now.year = s.store.monthly_reset_date.year) :
    consume_premium_credits now secs s =
      if s.store.premium_credits_used + secs / 10 >
          s.store.premium_credits_limit then
        (false, ⟨s.store, some s.store⟩)
      else
        (true, ⟨{ s.store with
            premium_credits_used :=
              s.store.premium_credits_used + secs / 10
            last_credit_usage := some now }, none⟩) := by
  rw [consume_premium_coherent now secs s hc]
  unfold storeAfterReset
  simp [hm, hy]

/-- The slow billing walk applies one `consume_premium_credits` of the
same amount per member, in append order, against the cumulative state:
the accepted members are exactly a prefix — member `k` is accepted iff
`used + (k+1)·creditsPerItem ≤ limit` — each accepted member adds
exactly `creditsPerItem = t/10` to the stored counter and to the
reported total, and rejected members change neither (no retry, no
rollback of the earlier accepted debits). -/
lemma slowLoop_greedy (now : Date) (t : Rat) (ht : 0 ≤ t)
    (l : List ((Nat × String) × String)) :
    ∀ (s : SvcState) (results : List (Option String)) (prem : Rat),
      CacheCoherent s →
      now.month = s.store.monthly_reset_date.month →
      now.year = s.store.monthly_reset_date.year →
      ∃ m, m ≤ l.length ∧
        (∀ k : Nat, k < m →
          s.store.premium_credits_used + ((k : Rat) + 1) * (t / 10) ≤
            s.store.premium_credits_limit) ∧
        (∀ k : Nat, m ≤ k → k < l.length →
          s.store.premium_credits_limit <
            s.store.premium_credits_used + ((k : Rat) + 1) * (t / 10)) ∧
        (slowLoop now t l s results prem).2.1 =
          prem + (m : Rat) * (t / 10) ∧
        (slowLoop now t l s results prem).2.2.store.premium_credits_used
          = s.store.premium_credits_used + (m : Rat) * (t / 10) ∧
        (slowLoop now t l s results prem).2.2.store.premium_credits_limit
          = s.store.premium_credits_limit := by
  have htc : (0 : Rat) ≤ t / 10 := by positivity
  induction l with
  | nil =>
    intro s results prem _ _ _
    refine ⟨0, Nat.le_refl 0, ?_, ?_, ?_, ?_, ?_⟩
    · intro k hk
      exact absurd hk (Nat.not_lt_zero k)
    · intro k _ hk
      exact absurd hk (Nat.not_lt_zero k)
    · simp [slowLoop]
    · simp [slowLoop]
    · simp [slowLoop]
  | cons hd rest ih =>
    intro s results prem hc hm hy
    obtain ⟨⟨idx, sm⟩, res⟩ := hd
    have hcp := consume_premium_current now t s hc hm hy
    by_cases hover : s.store.premium_credits_used + t / 10 >
        s.store.premium_credits_limit
    · rw [if_pos hover] at hcp
      simp only [slowLoop, hcp]
      obtain ⟨m', _, hpos, _, hprem, hused, hlim⟩ :=
        ih ⟨s.store, some s.store⟩
          (results.set idx (some "Credit limit exceeded")) prem
          (Or.inr rfl) hm hy
      have hm0 : m' = 0 := by
        cases m' with
        | zero => rfl
        | succ n =>
          have h0 := hpos 0 (Nat.succ_pos n)
          simp only [Nat.cast_zero, zero_add, one_mul] at h0
          exact absurd h0 (not_le.mpr hover)
      subst hm0
      refine ⟨0, Nat.zero_le _, ?_, ?_, ?_, ?_, ?_⟩
      · intro k hk
        exact absurd hk (Nat.not_lt_zero k)
      · intro k _ _
        have h1k : (1 : Rat) ≤ (k : Rat) + 1 := by
          have := Nat.cast_nonneg (α := Rat) k
          linarith
        have hmul := mul_le_mul_of_nonneg_right h1k htc
        rw [one_mul] at hmul
        linarith
      · rw [hprem]
      · rw [hused]
      · exact hlim
    · rw [if_neg hover] at hcp
      push_neg at hover
      simp only [slowLoop, hcp]
      obtain ⟨m', hle, hpos, hneg, hprem, hused, hlim⟩ :=
        ih ⟨{ s.store with
            premium_credits_used :=
              s.store.premium_credits_used + t / 10
            last_credit_usage := some now }, none⟩
          (results.set idx (some res)) (prem + t / 10)
          (Or.inl rfl) hm hy
      refine ⟨m' + 1, by simpa using Nat.succ_le_succ hle, ?_, ?_, ?_,
        ?_, ?_⟩
      · intro k hk
        cases k with
        | zero =>
          simpa using hover
        | succ j =>
          have hj := hpos j (Nat.lt_of_succ_lt_succ hk)
          simp only [UserDoc.premium_credits_used,
            UserDoc.premium_credits_limit] at hj
          push_cast at hj ⊢
          linarith
      · intro k hk hklen
        cases k with
        | zero => exact absurd hk (by omega)
        | succ j =>
          have hj := hneg j (Nat.le_of_succ_le_succ hk)
            (by simpa using Nat.lt_of_succ_lt_succ hklen)
          simp only [UserDoc.premium_credits_used,
            UserDoc.premium_credits_limit] at hj
          push_cast at hj ⊢
          linarith
      · rw [hprem]
        push_cast
        ring
      · rw [hused]
        simp only [UserDoc.premium_credits_used]
        push_cast
        ring
      · rw [hlim]

/-- The billing effect of the slow walk does not depend on the result
strings: two walks over the same positions and identifiers, with
different per-item results, consume the same credits and leave the
ledger in the same state. -/
lemma slowLoop_result_invariance (now : Date) (c : Rat) :
    ∀ (l₁ l₂ : List ((Nat × String) × String)) (s : SvcState)
      (r₁ r₂ : List (Option String)) (prem : Rat),
      l₁.map Prod.fst = l₂.map Prod.fst →
      (slowLoop now c l₁ s r₁ prem).2 =
        (slowLoop now c l₂ s r₂ prem).2 := by
  intro l₁
  induction l₁ with
  | nil =>
    intro l₂ s r₁ r₂ prem h
    have : l₂ = [] := by
      cases l₂ with
      | nil => rfl
      | cons hd tl => simp at h
    subst this
    rfl
  | cons hd₁ t₁ ih =>
    intro l₂ s r₁ r₂ prem h
    cases l₂ with
    | nil => simp at h
    | cons hd₂ t₂ =>
      simp only [List.map_cons, List.cons.injEq] at h
      obtain ⟨hfst, htl⟩ := h
      obtain ⟨⟨idx, sm⟩, res₁⟩ := hd₁
      obtain ⟨⟨idx₂, sm₂⟩, res₂⟩ := hd₂
      simp only [Prod.mk.injEq] at hfst
      obtain ⟨hidx, hsm⟩ := hfst
      subst hidx
      subst hsm
      simp only [slowLoop]
      rcases hcp : consume_premium_credits now c s with ⟨b, s1⟩
      cases b <;> simp only [hcp] <;> exact ih t₂ s1 _ _ _ htl

/-! ## C3, amended -/

/-- C3, amended: items of the slow-pending subset are billed
regardless of whether their slow resolution failed — the billing walk
issues the same premium debits and reaches the same ledger state
whatever the per-item result strings are, so a SlowFailed member with
an accepted debit contributes `creditsPerItem` like a named one. -/
theorem slow_billing_blind_to_failure (now : Date) (c : Rat)
    (l₁ l₂ : List ((Nat × String) × String)) (s : SvcState)
    (r₁ r₂ : List (Option String)) (prem : Rat)
    (h : l₁.map Prod.fst = l₂.map Prod.fst) :
    (slowLoop now c l₁ s r₁ prem).2 =
      (slowLoop now c l₂ s r₂ prem).2 :=
  slowLoop_result_invariance now c l₁ l₂ s r₁ r₂ prem h

/-- Witness for `slow_billing_blind_to_failure`: a successfully named
item and a failed item at the same position are billed identically. -/
theorem slow_billing_blind_to_failure_witness :
    ([((0, "X"), "X-name")].map Prod.fst =
      ([((0, "X"), "No name found")].map Prod.fst :
        List (Nat × String))) ∧
    (slowLoop ⟨2025, 10, 12⟩ 10 [((0, "X"), "X-name")]
        ⟨⟨0, 200, 0, 35, "free", ⟨2025, 10, 1⟩, none⟩, none⟩
        (List.replicate 1 none) 0).2 =
      (slowLoop ⟨2025, 10, 12⟩ 10 [((0, "X"), "No name found")]
        ⟨⟨0, 200, 0, 35, "free", ⟨2025, 10, 1⟩, none⟩, none⟩
        (List.replicate 1 none) 0).2 :=
  ⟨rfl, slow_billing_blind_to_failure ⟨2025, 10, 12⟩ 10
    [((0, "X"), "X-name")] [((0, "X"), "No name found")]
    ⟨⟨0, 200, 0, 35, "free", ⟨2025, 10, 1⟩, none⟩, none⟩
    (List.replicate 1 none) (List.replicate 1 none) 0 rfl⟩

/-! ## C6 -/

/-- C6: the slow-pending subset is walked in append order with one
premium debit of `creditsPerItem = t/10` per member, each member's
acceptance determined by the cumulative effect of the earlier debits:
the accepted members are exactly the greedy prefix (member `k` accepted
iff `used + (k+1)·creditsPerItem ≤ limit`), a rejected member changes
neither the counter nor the total (no retry, no rollback), and in the
spec's scenario — 3 slow items, 1/4 premium credit remaining,
creditsPerItem = 1/5 — the first appended item is billed and the next
two are "Credit limit exceeded". -/
theorem slow_billing_first_come_first_served :
    (∀ (now : Date) (t : Rat) (l : List ((Nat × String) × String))
      (s : SvcState) (results : List (Option String)) (prem : Rat),
      0 ≤ t → CacheCoherent s →
      now.month = s.store.monthly_reset_date.month →
      now.year = s.store.monthly_reset_date.year →
      ∃ m, m ≤ l.length ∧
        (∀ k : Nat, k < m →
          s.store.premium_credits_used + ((k : Rat) + 1) * (t / 10) ≤
            s.store.premium_credits_limit) ∧
        (∀ k : Nat, m ≤ k → k < l.length →
          s.store.premium_credits_limit <
            s.store.premium_credits_used + ((k : Rat) + 1) * (t / 10)) ∧
        (slowLoop now t l s results prem).2.1 =
          prem + (m : Rat) * (t / 10) ∧
        (slowLoop now t l s results prem).2.2.store.premium_credits_used
          = s.store.premium_credits_used + (m : Rat) * (t / 10) ∧
        (slowLoop now t l s results prem).2.2.store.premium_credits_limit
          = s.store.premium_credits_limit) ∧
    (let out := get_molecule_names_with_credits ⟨2025, 10, 12⟩
        (fun _ => none) (fun sm => sm ++ "-name") true 6 ["a", "b", "c"]
        ⟨⟨0, 200, 3 / 4, 1, "free", ⟨2025, 10, 1⟩, none⟩, none⟩
     out.names =
        ["a-name", "Credit limit exceeded", "Credit limit exceeded"] ∧
     out.premium_credits_used = 1 / 5 ∧
     out.state.store.premium_credits_used = 19 / 20) := by
  constructor
  · intro now t l s results prem ht hc hm hy
    exact slowLoop_greedy now t ht l s results prem hc hm hy
  · simp only [get_molecule_names_with_credits, fastLoop, slowLoop,
      enumFrom, consume_basic_credits, consume_premium_credits,
      check_and_reset_monthly_credits, get_user_by_id,
      _invalidate_user_cache, fillNone, fastNamed, List.zip, List.map,
      List.replicate, List.set, List.isEmpty, List.foldl, List.length,
      List.zipWith]
    norm_num
    decide

/-- Witness for `slow_billing_first_come_first_served` on the spec's
exhaustion scenario (limit 1, used 3/4, three slow items at 2 s
each). -/
theorem slow_billing_first_come_first_served_witness :
    ((0 : Rat) ≤ 2) ∧
    CacheCoherent
      ⟨⟨0, 200, 3 / 4, 1, "free", ⟨2025, 10, 1⟩, none⟩, none⟩ ∧
    (∃ m, m ≤ 3 ∧
      (∀ k : Nat, k < m →
        (3 / 4 : Rat) + ((k : Rat) + 1) * (2 / 10) ≤ 1) ∧
      (∀ k : Nat, m ≤ k → k < 3 →
        (1 : Rat) < 3 / 4 + ((k : Rat) + 1) * (2 / 10)) ∧
      (slowLoop ⟨2025, 10, 12⟩ 2
          [((0, "a"), "x"), ((1, "b"), "y"), ((2, "c"), "z")]
          ⟨⟨0, 200, 3 / 4, 1, "free", ⟨2025, 10, 1⟩, none⟩, none⟩
          (List.replicate 3 none) 0).2.1 = 0 + (m : Rat) * (2 / 10) ∧
      (slowLoop ⟨2025, 10, 12⟩ 2
          [((0, "a"), "x"), ((1, "b"), "y"), ((2, "c"), "z")]
          ⟨⟨0, 200, 3 / 4, 1, "free", ⟨2025, 10, 1⟩, none⟩, none⟩
          (List.replicate 3 none) 0).2.2.store.premium_credits_used =
        3 / 4 + (m : Rat) * (2 / 10) ∧
      (slowLoop ⟨2025, 10, 12⟩ 2
          [((0, "a"), "x"), ((1, "b"), "y"), ((2, "c"), "z")]
          ⟨⟨0, 200, 3 / 4, 1, "free", ⟨2025, 10, 1⟩, none⟩, none⟩
          (List.replicate 3 none) 0).2.2.store.premium_credits_limit =
        1) :=
  ⟨by norm_num, by decide,
    slow_billing_first_come_first_served.1 ⟨2025, 10, 12⟩ 2
      [((0, "a"), "x"), ((1, "b"), "y"), ((2, "c"), "z")]
      ⟨⟨0, 200, 3 / 4, 1, "free", ⟨2025, 10, 1⟩, none⟩, none⟩
      (List.replicate 3 none) 0 (by norm_num) (by decide) rfl rfl⟩

/-! ## C7 -/

/-- The fast walk only ever appends to the slow-pending list, and the
appended indices form a subsequence of the walked indices: relative
order is preserved. -/
lemma fastLoop_stout_sublist (now : Date)
    (l : List (Nat × String × Option String)) :
    ∀ (s : SvcState) (results : List (Option String))
      (stout : List (Nat × String)) (basic : Nat),
      ∃ Δ, (fastLoop now l s results stout basic).2.1 = stout ++ Δ ∧
        List.Sublist (Δ.map Prod.fst) (l.map (fun x => x.1)) := by
  induction l with
  | nil =>
    intro s results stout basic
    exact ⟨[], by simp [fastLoop], by simp⟩
  | cons hd rest ih =>
    intro s results stout basic
    obtain ⟨i, sm, r⟩ := hd
    simp only [fastLoop]
    cases hfn : fastNamed r with
    | true =>
      simp only [if_pos rfl]
      rcases hcb : consume_basic_credits now 1 s with ⟨b, s1⟩
      cases b with
      | true =>
        obtain ⟨Δ, hΔ, hsub⟩ :=
          ih s1 (results.set i (some (r.getD ""))) stout (basic + 1)
        exact ⟨Δ, hΔ, by simpa using hsub.cons i⟩
      | false =>
        obtain ⟨Δ, hΔ, hsub⟩ :=
          ih s1 results (stout ++ [(i, sm)]) basic
        refine ⟨(i, sm) :: Δ, ?_, ?_⟩
        · show (fastLoop now rest s1 results
              (stout ++ [(i, sm)]) basic).2.1 = stout ++ (i, sm) :: Δ
          rw [hΔ, List.append_assoc]
          rfl
        · simpa using hsub.cons₂ i
    | false =>
      simp only [hfn, if_neg Bool.false_ne_true]
      obtain ⟨Δ, hΔ, hsub⟩ := ih s results (stout ++ [(i, sm)]) basic
      refine ⟨(i, sm) :: Δ, ?_, ?_⟩
      · show (fastLoop now rest s results
            (stout ++ [(i, sm)]) basic).2.1 = stout ++ (i, sm) :: Δ
        rw [hΔ, List.append_assoc]
        rfl
      · simpa using hsub.cons₂ i

/-- C7: the fast walk visits items in original index order; it only
appends to the slow-pending subset, preserving relative order (the
appended index sequence is a subsequence of the walked index
sequence); and on the spec's scenario — items 0 and 2 fast-named,
item 1 a miss, exactly one fast credit remaining — item 0 is billed
with its fast name, while items 1 and 2 are both routed to the slow
subset in index order. -/
theorem fast_walk_partition :
    (∀ (now : Date) (l : List (Nat × String × Option String))
      (s : SvcState) (results : List (Option String))
      (stout : List (Nat × String)) (basic : Nat),
      ∃ Δ, (fastLoop now l s results stout basic).2.1 = stout ++ Δ ∧
        List.Sublist (Δ.map Prod.fst) (l.map (fun x => x.1))) ∧
    ((fastLoop ⟨2025, 10, 12⟩
        [(0, "a", some "a-fast"), (1, "b", none), (2, "c", some "c-fast")]
        ⟨⟨0, 1, 0, 1, "free", ⟨2025, 10, 1⟩, none⟩, none⟩
        (List.replicate 3 none) [] 0).1 =
      [some "a-fast", none, none] ∧
    (fastLoop ⟨2025, 10, 12⟩
        [(0, "a", some "a-fast"), (1, "b", none), (2, "c", some "c-fast")]
        ⟨⟨0, 1, 0, 1, "free", ⟨2025, 10, 1⟩, none⟩, none⟩
        (List.replicate 3 none) [] 0).2.1 = [(1, "b"), (2, "c")] ∧
    (fastLoop ⟨2025, 10, 12⟩
        [(0, "a", some "a-fast"), (1, "b", none), (2, "c", some "c-fast")]
        ⟨⟨0, 1, 0, 1, "free", ⟨2025, 10, 1⟩, none⟩, none⟩
        (List.replicate 3 none) [] 0).2.2.1 = 1 ∧
    (fastLoop ⟨2025, 10, 12⟩
        [(0, "a", some "a-fast"), (1, "b", none), (2, "c", some "c-fast")]
        ⟨⟨0, 1, 0, 1, "free", ⟨2025, 10, 1⟩, none⟩, none⟩
        (List.replicate 3 none) []
        0).2.2.2.store.basic_credits_used = 1) := by
  constructor
  · exact fun now l s results stout basic =>
      fastLoop_stout_sublist now l s results stout basic
  · simp [fastLoop, consume_basic_credits,
      check_and_reset_monthly_credits, get_user_by_id,
      _invalidate_user_cache, fastNamed, List.replicate, List.set]

/-! ## C8 -/

/-- C8: the per-item amount billed for the slow-pending subset is
`(T / |subset|) / 10`, the same for every member: a 4-item batch
measured at 8 seconds yields `(8/4)/10 = 1/5` credits per member and a
total of `4/5` when all are accepted; and the billed amounts and final
ledger state do not depend on the slow resolver's per-item outputs at
all (in particular not on which members were internal cache hits). -/
theorem batch_cost_apportionment :
    (∀ (now : Date) (pubchem : String → Option String)
      (f g : String → String) (stoutOk : Bool) (T : Rat)
      (smiles_list : List String) (s0 : SvcState),
      (get_molecule_names_with_credits now pubchem f stoutOk T
          smiles_list s0).premium_credits_used =
        (get_molecule_names_with_credits now pubchem g stoutOk T
          smiles_list s0).premium_credits_used ∧
      (get_molecule_names_with_credits now pubchem f stoutOk T
          smiles_list s0).state =
        (get_molecule_names_with_credits now pubchem g stoutOk T
          smiles_list s0).state) ∧
    ((8 : Rat) / 4 / 10 = 1 / 5 ∧
     (let out := get_molecule_names_with_credits ⟨2025, 10, 12⟩
        (fun _ => none) (fun sm => sm ++ "-n") true 8
        ["a", "b", "c", "d"]
        ⟨⟨0, 200, 0, 35, "free", ⟨2025, 10, 1⟩, none⟩, none⟩
      out.premium_credits_used = 4 / 5 ∧
      out.state.store.premium_credits_used = 4 / 5 ∧
      out.total_compute_time = 8)) := by
  constructor
  · intro now pubchem f g stoutOk T smiles_list s0
    unfold get_molecule_names_with_credits
    rcases hfl : fastLoop now ((enumFrom 0 (smiles_list.zip
        (smiles_list.map pubchem))).map (fun p => (p.1, p.2.1, p.2.2)))
        ((get_user_by_id s0).2)
        (List.replicate smiles_list.length (none : Option String)) [] 0
      with ⟨results, stout, basic, s1⟩
    simp only [hfl]
    cases hempty : stout.isEmpty with
    | true => simp
    | false =>
      cases stoutOk with
      | false => simp
      | true =>
        have hmf : (stout.zip (stout.map (fun p => f p.2))).map
            Prod.fst = stout := List.map_fst_zip _ _ (by simp)
        have hmg : (stout.zip (stout.map (fun p => g p.2))).map
            Prod.fst = stout := List.map_fst_zip _ _ (by simp)
        have hinv := slowLoop_result_invariance now
          (T / (stout.length : Rat))
          (stout.zip (stout.map (fun p => f p.2)))
          (stout.zip (stout.map (fun p => g p.2)))
          s1 results results 0 (hmf.trans hmg.symm)
        rcases hsf : slowLoop now (T / (stout.length : Rat))
            (stout.zip (stout.map (fun p => f p.2))) s1 results 0
          with ⟨r2f, premf, s2f⟩
        rcases hsg : slowLoop now (T / (stout.length : Rat))
            (stout.zip (stout.map (fun p => g p.2))) s1 results 0
          with ⟨r2g, premg, s2g⟩
        rw [hsf, hsg] at hinv
        simp only [Prod.mk.injEq] at hinv
        simp only [hsf, hsg]
        simp [hinv.1, hinv.2]
  · constructor
    · norm_num
    · simp [get_molecule_names_with_credits, fastLoop, slowLoop,
        enumFrom, consume_basic_credits, consume_premium_credits,
        check_and_reset_monthly_credits, get_user_by_id,
        _invalidate_user_cache, fillNone, fastNamed, List.replicate,
        List.set]
      norm_num

/-! ## C9 -/

lemma fastLoop_results_length (now : Date)
    (l : List (Nat × String × Option String)) :
    ∀ (s : SvcState) (results : List (Option String))
      (stout : List (Nat × String)) (basic : Nat),
      (fastLoop now l s results stout basic).1.length =
        results.length := by
  induction l with
  | nil =>
    intro s results stout basic
    rfl
  | cons hd rest ih =>
    intro s results stout basic
    obtain ⟨i, sm, r⟩ := hd
    simp only [fastLoop]
    cases hfn : fastNamed r with
    | true =>
      rcases hcb : consume_basic_credits now 1 s with ⟨b, s1⟩
      cases b with
      | true =>
        show (fastLoop now rest s1 (results.set i (some (r.getD "")))
            stout (basic + 1)).1.length = results.length
        rw [ih s1 (results.set i (some (r.getD ""))) stout (basic + 1)]
        exact List.length_set results i _
      | false =>
        show (fastLoop now rest s1 results
            (stout ++ [(i, sm)]) basic).1.length = results.length
        exact ih s1 results (stout ++ [(i, sm)]) basic
    | false =>
      show (fastLoop now rest s results
          (stout ++ [(i, sm)]) basic).1.length = results.length
      exact ih s results (stout ++ [(i, sm)]) basic

lemma slowLoop_results_length (now : Date) (c : Rat)
    (l : List ((Nat × String) × String)) :
    ∀ (s : SvcState) (results : List (Option String)) (prem : Rat),
      (slowLoop now c l s results prem).1.length = results.length := by
  induction l with
  | nil =>
    intro s results prem
    rfl
  | cons hd rest ih =>
    intro s results prem
    obtain ⟨⟨idx, sm⟩, res⟩ := hd
    simp only [slowLoop]
    rcases hcp : consume_premium_credits now c s with ⟨b, s1⟩
    cases b with
    | true =>
      show (slowLoop now c rest s1 (results.set idx (some res))
          (prem + c / 10)).1.length = results.length
      rw [ih s1 (results.set idx (some res)) (prem + c / 10)]
      exact List.length_set results idx _
    | false =>
      show (slowLoop now c rest s1
          (results.set idx (some "Credit limit exceeded"))
          prem).1.length = results.length
      rw [ih s1 (results.set idx (some "Credit limit exceeded")) prem]
      exact List.length_set results idx _

lemma foldl_set_length (l : List (Nat × String)) :
    ∀ (results : List (Option String)),
      (l.foldl (fun r p => r.set p.1 (some "Processing failed"))
        results).length = results.length := by
  induction l with
  | nil =>
    intro results
    rfl
  | cons hd rest ih =>
    intro results
    rw [List.foldl_cons, ih (results.set hd.1 (some "Processing failed"))]
    exact List.length_set results hd.1 _

/-- Provenance of a slot through the fast walk: each slot is either
untouched, or holds the fast name of the item at that very index. -/
lemma fastLoop_slot (now : Date)
    (l : List (Nat × String × Option String)) :
    ∀ (s : SvcState) (results : List (Option String))
      (stout : List (Nat × String)) (basic : Nat) (j : Nat),
      (fastLoop now l s results stout basic).1[j]? = results[j]? ∨
      ∃ sm v, (j, sm, some v) ∈ l ∧
        (fastLoop now l s results stout basic).1[j]? =
          some (some v) := by
  induction l with
  | nil =>
    intro s results stout basic j
    exact Or.inl rfl
  | cons hd rest ih =>
    intro s results stout basic j
    obtain ⟨i, sm, r⟩ := hd
    cases hfn : fastNamed r with
    | true =>
      rcases hcb : consume_basic_credits now 1 s with ⟨b, s1⟩
      cases b with
      | true =>
        have step : (fastLoop now ((i, sm, r) :: rest) s results stout
            basic).1 = (fastLoop now rest s1
              (results.set i (some (r.getD ""))) stout (basic + 1)).1 :=
          by simp [fastLoop, hfn, hcb]
        rw [step]
        rcases ih s1 (results.set i (some (r.getD ""))) stout
            (basic + 1) j with h | ⟨sm', v', hmem, hv⟩
        · rw [List.getElem?_set] at h
          by_cases hij : i = j
          · subst hij
            by_cases hlen : i < results.length
            · rw [if_pos rfl, if_pos hlen] at h
              cases r with
              | none => simp [fastNamed] at hfn
              | some v =>
                exact Or.inr ⟨sm, v, List.mem_cons_self _ _,
                  by simpa using h⟩
            · rw [if_pos rfl, if_neg hlen] at h
              rw [h, List.getElem?_eq_none (by omega)]
              exact Or.inl rfl
          · rw [if_neg hij] at h
            exact Or.inl h
        · exact Or.inr ⟨sm', v', List.mem_cons_of_mem _ hmem, hv⟩
      | false =>
        have step : (fastLoop now ((i, sm, r) :: rest) s results stout
            basic).1 = (fastLoop now rest s1 results
              (stout ++ [(i, sm)]) basic).1 :=
          by simp [fastLoop, hfn, hcb]
        rw [step]
        rcases ih s1 results (stout ++ [(i, sm)]) basic j
          with h | ⟨sm', v', hmem, hv⟩
        · exact Or.inl h
        · exact Or.inr ⟨sm', v', List.mem_cons_of_mem _ hmem, hv⟩
    | false =>
      have step : (fastLoop now ((i, sm, r) :: rest) s results stout
          basic).1 = (fastLoop now rest s results
            (stout ++ [(i, sm)]) basic).1 :=
        by simp [fastLoop, hfn]
      rw [step]
      rcases ih s results (stout ++ [(i, sm)]) basic j
        with h | ⟨sm', v', hmem, hv⟩
      · exact Or.inl h
      · exact Or.inr ⟨sm', v', List.mem_cons_of_mem _ hmem, hv⟩

/-- Provenance of the slow-pending subset produced by the fast walk:
every member was already pending or is one of the walked items. -/
lemma fastLoop_stout_mem (now : Date)
    (l : List (Nat × String × Option String)) :
    ∀ (s : SvcState) (results : List (Option String))
      (stout : List (Nat × String)) (basic : Nat)
      (p : Nat × String),
      p ∈ (fastLoop now l s results stout basic).2.1 →
      p ∈ stout ∨ ∃ r, (p.1, p.2, r) ∈ l := by
  induction l with
  | nil =>
    intro s results stout basic p hp
    exact Or.inl hp
  | cons hd rest ih =>
    intro s results stout basic p hp
    obtain ⟨i, sm, r⟩ := hd
    cases hfn : fastNamed r with
    | true =>
      rcases hcb : consume_basic_credits now 1 s with ⟨b, s1⟩
      cases b with
      | true =>
        have step : (fastLoop now ((i, sm, r) :: rest) s results stout
            basic).2.1 = (fastLoop now rest s1
              (results.set i (some (r.getD ""))) stout (basic + 1)).2.1
          := by simp [fastLoop, hfn, hcb]
        rw [step] at hp
        rcases ih s1 (results.set i (some (r.getD ""))) stout
            (basic + 1) p hp with h | ⟨r', hr'⟩
        · exact Or.inl h
        · exact Or.inr ⟨r', List.mem_cons_of_mem _ hr'⟩
      | false =>
        have step : (fastLoop now ((i, sm, r) :: rest) s results stout
            basic).2.1 = (fastLoop now rest s1 results
              (stout ++ [(i, sm)]) basic).2.1 :=
          by simp [fastLoop, hfn, hcb]
        rw [step] at hp
        rcases ih s1 results (stout ++ [(i, sm)]) basic p hp
          with h | ⟨r', hr'⟩
        · rcases List.mem_append.mp h with h | h
          · exact Or.inl h
          · simp only [List.mem_singleton] at h
            subst h
            exact Or.inr ⟨r, List.mem_cons_self _ _⟩
        · exact Or.inr ⟨r', List.mem_cons_of_mem _ hr'⟩
    | false =>
      have step : (fastLoop now ((i, sm, r) :: rest) s results stout
          basic).2.1 = (fastLoop now rest s results
            (stout ++ [(i, sm)]) basic).2.1 :=
        by simp [fastLoop, hfn]
      rw [step] at hp
      rcases ih s results (stout ++ [(i, sm)]) basic p hp
        with h | ⟨r', hr'⟩
      · rcases List.mem_append.mp h with h | h
        · exact Or.inl h
        · simp only [List.mem_singleton] at h
          subst h
          exact Or.inr ⟨r, List.mem_cons_self _ _⟩
      · exact Or.inr ⟨r', List.mem_cons_of_mem _ hr'⟩

/-- Provenance of a slot through the slow billing walk: each slot is
either untouched, or holds the slow result of the item at that index,
or the explicit "Credit limit exceeded" status of that item. -/
lemma slowLoop_slot (now : Date) (c : Rat)
    (l : List ((Nat × String) × String)) :
    ∀ (s : SvcState) (results : List (Option String)) (prem : Rat)
      (j : Nat),
      (slowLoop now c l s results prem).1[j]? = results[j]? ∨
      ∃ sm res, ((j, sm), res) ∈ l ∧
        ((slowLoop now c l s results prem).1[j]? = some (some res) ∨
          (slowLoop now c l s results prem).1[j]? =
            some (some "Credit limit exceeded")) := by
  induction l with
  | nil =>
    intro s results prem j
    exact Or.inl rfl
  | cons hd rest ih =>
    intro s results prem j
    obtain ⟨⟨i, sm⟩, res⟩ := hd
    rcases hcp : consume_premium_credits now c s with ⟨b, s1⟩
    cases b with
    | true =>
      have step : (slowLoop now c (((i, sm), res) :: rest) s results
          prem).1 = (slowLoop now c rest s1 (results.set i (some res))
            (prem + c / 10)).1 := by
        simp [slowLoop, hcp]
      rw [step]
      rcases ih s1 (results.set i (some res)) (prem + c / 10) j
        with h | ⟨sm', res', hmem, hv⟩
      · rw [List.getElem?_set] at h
        by_cases hij : i = j
        · subst hij
          by_cases hlen : i < results.length
          · rw [if_pos rfl, if_pos hlen] at h
            exact Or.inr ⟨sm, res, List.mem_cons_self _ _, Or.inl h⟩
          · rw [if_pos rfl, if_neg hlen] at h
            rw [h, List.getElem?_eq_none (by omega)]
            exact Or.inl rfl
        · rw [if_neg hij] at h
          exact Or.inl h
      · exact Or.inr ⟨sm', res', List.mem_cons_of_mem _ hmem, hv⟩
    | false =>
      have step : (slowLoop now c (((i, sm), res) :: rest) s results
          prem).1 = (slowLoop now c rest s1
            (results.set i (some "Credit limit exceeded")) prem).1 := by
        simp [slowLoop, hcp]
      rw [step]
      rcases ih s1 (results.set i (some "Credit limit exceeded")) prem j
        with h | ⟨sm', res', hmem, hv⟩
      · rw [List.getElem?_set] at h
        by_cases hij : i = j
        · subst hij
          by_cases hlen : i < results.length
          · rw [if_pos rfl, if_pos hlen] at h
            exact Or.inr ⟨sm, res, List.mem_cons_self _ _, Or.inr h⟩
          · rw [if_pos rfl, if_neg hlen] at h
            rw [h, List.getElem?_eq_none (by omega)]
            exact Or.inl rfl
        · rw [if_neg hij] at h
          exact Or.inl h
      · exact Or.inr ⟨sm', res', List.mem_cons_of_mem _ hmem, hv⟩

/-- Provenance of a slot through the exception path: each slot is
untouched or holds "Processing failed". -/
lemma foldl_set_slot (l : List (Nat × String)) :
    ∀ (results : List (Option String)) (j : Nat),
      (l.foldl (fun r p => r.set p.1 (some "Processing failed"))
        results)[j]? = results[j]? ∨
      (l.foldl (fun r p => r.set p.1 (some "Processing failed"))
        results)[j]? = some (some "Processing failed") := by
  induction l with
  | nil =>
    intro results j
    exact Or.inl rfl
  | cons hd rest ih =>
    intro results j
    rw [List.foldl_cons]
    rcases ih (results.set hd.1 (some "Processing failed")) j
      with h | h
    · rw [List.getElem?_set] at h
      by_cases hij : hd.1 = j
      · subst hij
        by_cases hlen : hd.1 < results.length
        · rw [if_pos rfl, if_pos hlen] at h
          exact Or.inr h
        · rw [if_pos rfl, if_neg hlen] at h
          rw [h, List.getElem?_eq_none (by omega)]
          exact Or.inl rfl
      · rw [if_neg hij] at h
        exact Or.inl h
    · exact Or.inr h

/-- Membership in `enumFrom` recovers the position. -/
lemma enumFrom_mem (l : List α) :
    ∀ (k i : Nat) (a : α), (i, a) ∈ enumFrom k l →
      k ≤ i ∧ i - k < l.length ∧ l[i - k]? = some a := by
  induction l with
  | nil =>
    intro k i a h
    simp [enumFrom] at h
  | cons hd tl ih =>
    intro k i a h
    simp only [enumFrom, List.mem_cons] at h
    rcases h with h | h
    · simp only [Prod.mk.injEq] at h
      obtain ⟨hi, ha⟩ := h
      subst hi
      subst ha
      exact ⟨Nat.le_refl _, by simp, by simp⟩
    · obtain ⟨hk, hlt, hget⟩ := ih (k + 1) i a h
      refine ⟨by omega, by simp; omega, ?_⟩
      have hik : i - k = (i - (k + 1)) + 1 := by omega
      rw [hik]
      simpa using hget

/-- Membership in the enumerated fast-phase input recovers the
identifier at that position and its PubChem outcome. -/
lemma enum_triple_mem (pubchem : String → Option String)
    (smiles_list : List String) (i : Nat) (sm : String)
    (r : Option String)
    (h : (i, sm, r) ∈ (enumFrom 0 (smiles_list.zip
      (smiles_list.map pubchem))).map (fun p => (p.1, p.2.1, p.2.2))) :
    smiles_list[i]? = some sm ∧ r = pubchem sm := by
  rcases List.mem_map.mp h with ⟨⟨i', sm', r'⟩, hmem, heq⟩
  simp only [Prod.mk.injEq] at heq
  obtain ⟨hi, hsm, hr⟩ := heq
  subst hi
  subst hsm
  subst hr
  obtain ⟨-, -, hget⟩ := enumFrom_mem _ 0 _ _ hmem
  simp only [Nat.sub_zero] at hget
  obtain ⟨h1, h2⟩ := List.getElem?_zip_eq_some.mp hget
  refine ⟨h1, ?_⟩
  rw [List.getElem?_map, h1] at h2
  simpa using h2.symm

/-- Membership in `l.zip (l.map f)` recovers the function
application. -/
lemma mem_zip_map (f : α → β) (l : List α) :
    ∀ p : α × β, p ∈ l.zip (l.map f) → p.1 ∈ l ∧ p.2 = f p.1 := by
  induction l with
  | nil =>
    intro p h
    simp at h
  | cons hd tl ih =>
    intro p h
    simp only [List.map_cons, List.zip_cons_cons, List.mem_cons] at h
    rcases h with h | h
    · subst h
      exact ⟨List.mem_cons_self _ _, rfl⟩
    · obtain ⟨h1, h2⟩ := ih p h
      exact ⟨List.mem_cons_of_mem _ h1, h2⟩

/-- The output name list always has exactly the input's length. -/
lemma resolve_names_length (now : Date)
    (pubchem : String → Option String) (stoutFn : String → String)
    (stoutOk : Bool) (T : Rat) (smiles_list : List String)
    (s0 : SvcState) :
    (get_molecule_names_with_credits now pubchem stoutFn stoutOk T
      smiles_list s0).names.length = smiles_list.length := by
  unfold get_molecule_names_with_credits
  rcases hfl : fastLoop now ((enumFrom 0 (smiles_list.zip
      (smiles_list.map pubchem))).map (fun p => (p.1, p.2.1, p.2.2)))
      ((get_user_by_id s0).2)
      (List.replicate smiles_list.length (none : Option String)) [] 0
    with ⟨results, stout, basic, s1⟩
  have hrl : results.length = smiles_list.length := by
    have h := fastLoop_results_length now
      ((enumFrom 0 (smiles_list.zip (smiles_list.map pubchem))).map
        (fun p => (p.1, p.2.1, p.2.2)))
      ((get_user_by_id s0).2)
      (List.replicate smiles_list.length (none : Option String)) [] 0
    rw [hfl] at h
    simpa using h
  simp only [hfl]
  cases hempty : stout.isEmpty with
  | true =>
    simpa [fillNone] using hrl
  | false =>
    cases stoutOk with
    | true =>
      rcases hsl : slowLoop now (T / (stout.length : Rat))
          (stout.zip (stout.map (fun p => stoutFn p.2))) s1 results 0
        with ⟨results2, prem, s2⟩
      have h2 := slowLoop_results_length now
        (T / (stout.length : Rat))
        (stout.zip (stout.map (fun p => stoutFn p.2))) s1 results 0
      rw [hsl] at h2
      simp only [hsl]
      simpa [fillNone] using h2.trans hrl
    | false =>
      simpa [fillNone] using (foldl_set_length stout results).trans hrl

/-- C9: the output of `get_molecule_names_with_credits` has exactly
the length of the input identifier list, and the entry at every
position `j` is a defined value belonging to the identifier at
position `j` of the input: its PubChem name, its STOUT translation, or
one of the explicit status strings "Credit limit exceeded",
"Processing failed", "No name found". -/
theorem resolve_names_order_preserving (now : Date)
    (pubchem : String → Option String) (stoutFn : String → String)
    (stoutOk : Bool) (T : Rat) (smiles_list : List String)
    (s0 : SvcState) :
    (get_molecule_names_with_credits now pubchem stoutFn stoutOk T
      smiles_list s0).names.length = smiles_list.length ∧
    (∀ j, j < smiles_list.length →
      ∃ sm v, smiles_list[j]? = some sm ∧
        (get_molecule_names_with_credits now pubchem stoutFn stoutOk T
          smiles_list s0).names[j]? = some v ∧
        (pubchem sm = some v ∨ v = stoutFn sm ∨
          v = "Credit limit exceeded" ∨ v = "Processing failed" ∨
          v = "No name found")) := by
  refine ⟨resolve_names_length now pubchem stoutFn stoutOk T
    smiles_list s0, ?_⟩
  intro j hj
  have hsm : smiles_list[j]? = some smiles_list[j] :=
    List.getElem?_eq_getElem hj
  unfold get_molecule_names_with_credits
  rcases hfl : fastLoop now ((enumFrom 0 (smiles_list.zip
      (smiles_list.map pubchem))).map (fun p => (p.1, p.2.1, p.2.2)))
      ((get_user_by_id s0).2)
      (List.replicate smiles_list.length (none : Option String)) [] 0
    with ⟨results, stout, basic, s1⟩
  have hfast := fastLoop_slot now ((enumFrom 0 (smiles_list.zip
      (smiles_list.map pubchem))).map (fun p => (p.1, p.2.1, p.2.2)))
      ((get_user_by_id s0).2)
      (List.replicate smiles_list.length (none : Option String)) [] 0 j
  rw [hfl] at hfast
  have hreplicate :
      (List.replicate smiles_list.length (none : Option String))[j]? =
        some none := by
    rw [List.getElem?_replicate, if_pos hj]
  have hfastcase : results[j]? = some none ∨
      ∃ sm v, smiles_list[j]? = some sm ∧ pubchem sm = some v ∧
        results[j]? = some (some v) := by
    rcases hfast with h | ⟨sm, v, hmem, hv⟩
    · rw [hreplicate] at h
      exact Or.inl h
    · obtain ⟨h1, h2⟩ :=
        enum_triple_mem pubchem smiles_list j sm (some v) hmem
      exact Or.inr ⟨sm, v, h1, h2.symm, hv⟩
  have hfill : ∀ (rs : List (Option String)), rs[j]? = results[j]? →
      ∃ sm v, smiles_list[j]? = some sm ∧
        (fillNone rs)[j]? = some v ∧
        (pubchem sm = some v ∨ v = stoutFn sm ∨
          v = "Credit limit exceeded" ∨ v = "Processing failed" ∨
          v = "No name found") := by
    intro rs hrs
    rcases hfastcase with h | ⟨sm, v, h1, h2, h3⟩
    · refine ⟨smiles_list[j], "No name found", hsm, ?_, by simp⟩
      simp only [fillNone, List.getElem?_map, hrs, h]
      rfl
    · refine ⟨sm, v, h1, ?_, Or.inl h2⟩
      simp only [fillNone, List.getElem?_map, hrs, h3]
      rfl
  simp only [hfl]
  cases hempty : stout.isEmpty with
  | true =>
    rw [if_pos rfl]
    exact hfill results rfl
  | false =>
    rw [if_neg (by simp)]
    cases stoutOk with
    | true =>
      rw [if_pos rfl]
      rcases hsl : slowLoop now (T / (stout.length : Rat))
          (stout.zip (stout.map (fun p => stoutFn p.2))) s1 results 0
        with ⟨results2, prem, s2⟩
      have hslow := slowLoop_slot now (T / (stout.length : Rat))
        (stout.zip (stout.map (fun p => stoutFn p.2))) s1 results 0 j
      rw [hsl] at hslow
      simp only [hsl]
      rcases hslow with h | ⟨sm', res', hmem, hv⟩
      · exact hfill results2 h
      · obtain ⟨hstoutmem, hres⟩ :=
          mem_zip_map (fun p => stoutFn p.2) stout ((j, sm'), res') hmem
        have hsm2 := fastLoop_stout_mem now
          ((enumFrom 0 (smiles_list.zip
            (smiles_list.map pubchem))).map
              (fun p => (p.1, p.2.1, p.2.2)))
          ((get_user_by_id s0).2)
          (List.replicate smiles_list.length (none : Option String))
          [] 0 (j, sm')
        rw [hfl] at hsm2
        rcases hsm2 hstoutmem with habs | ⟨r, hr⟩
        · simp at habs
        · obtain ⟨h1, -⟩ :=
            enum_triple_mem pubchem smiles_list j sm' r hr
          rcases hv with hv | hv
          · refine ⟨sm', res', h1, ?_, Or.inr (Or.inl hres)⟩
            simp only [fillNone, List.getElem?_map, hv]
            rfl
          · refine ⟨sm', "Credit limit exceeded", h1, ?_, by simp⟩
            simp only [fillNone, List.getElem?_map, hv]
            rfl
    | false =>
      rw [if_neg (by simp)]
      rcases foldl_set_slot stout results j with h | h
      · exact hfill _ h
      · refine ⟨smiles_list[j], "Processing failed", hsm, ?_, by simp⟩
        simp only [fillNone, List.getElem?_map, h]
        rfl

/-- Witness for `resolve_names_order_preserving` on a one-identifier
batch. -/
theorem resolve_names_order_preserving_witness :
    0 < (["CCO"] : List String).length ∧
    (∃ sm v, (["CCO"] : List String)[0]? = some sm ∧
      (get_molecule_names_with_credits ⟨2025, 10, 12⟩
        (fun _ => some "ethanol") (fun _ => "ethanol-stout") true 0
        ["CCO"]
        ⟨⟨0, 200, 0, 35, "free", ⟨2025, 10, 1⟩, none⟩,
          none⟩).names[0]? = some v ∧
      ((fun _ => some "ethanol") sm = some v ∨
        v = (fun _ => "ethanol-stout") sm ∨
        v = "Credit limit exceeded" ∨ v = "Processing failed" ∨
        v = "No name found")) :=
  ⟨by decide,
    (resolve_names_order_preserving ⟨2025, 10, 12⟩
      (fun _ => some "ethanol") (fun _ => "ethanol-stout") true 0
      ["CCO"]
      ⟨⟨0, 200, 0, 35, "free", ⟨2025, 10, 1⟩, none⟩, none⟩).2 0
      (by decide)⟩

/-! ## C10 -/

/-- C10: the naming endpoint's entry gate rejects with HTTP 429 exactly
when both remaining balances (as read through the monthly-reset check
and the cache) are `≤ 0`, i.e. both used counters have reached their
limits; it lets the batch through exactly when at least one currency
has a strictly positive remaining balance. -/
theorem entry_gate_rejects_iff (now : Date) (s : SvcState) :
    ((check_credit_limits now s).1 = true ↔
      ((get_user_credit_usage now s).1.basic_credits_limit ≤
          (get_user_credit_usage now s).1.basic_credits_used ∧
        (get_user_credit_usage now s).1.premium_credits_limit ≤
          (get_user_credit_usage now s).1.premium_credits_used)) ∧
    ((check_credit_limits now s).1 = false ↔
      ((get_user_credit_usage now s).1.basic_credits_used <
          (get_user_credit_usage now s).1.basic_credits_limit ∨
        (get_user_credit_usage now s).1.premium_credits_used <
          (get_user_credit_usage now s).1.premium_credits_limit)) := by
  unfold check_credit_limits
  rcases hu : get_user_credit_usage now s with ⟨u, s1⟩
  simp only [hu]
  by_cases hcond : u.basic_credits_limit - u.basic_credits_used ≤ 0 ∧
      u.premium_credits_limit - u.premium_credits_used ≤ 0
  · rw [if_pos hcond]
    obtain ⟨h1, h2⟩ := hcond
    refine ⟨⟨fun _ => ⟨by omega, by linarith⟩, fun _ => rfl⟩,
      ⟨fun hfalse => absurd hfalse (by simp), fun hor => ?_⟩⟩
    rcases hor with h | h
    · exact absurd h (by omega)
    · exact absurd h (by linarith)
  · rw [if_neg hcond]
    refine ⟨⟨fun htrue => absurd htrue (by simp), fun hboth => ?_⟩,
      ⟨fun _ => ?_, fun _ => rfl⟩⟩
    · exact absurd ⟨by omega, by linarith [hboth.2]⟩ hcond
    · rcases not_and_or.mp hcond with h | h
      · exact Or.inl (by omega)
      · exact Or.inr (sub_pos.mp (not_le.mp h))

end Chemly
